import Mathlib

/-!
Verification of the PDF-KhmerParser pipeline: a shallow embedding of the
Khmer PDF/image text extractor (document-type detector, native and OCR
extraction strategies, fallback orchestrator, image preprocessor and text
normalizer), with theorems settling the specified properties.

Python strings are embedded as `List Char`.  External collaborators
(pdfplumber page extraction, pdf2image rasterization, pytesseract OCR,
PIL image loading, and the Unicode NFC routine of `unicodedata`) are
modelled as oracles: per-page outcomes are `Except Unit` values carried by
the document, and NFC is a `Str → Str` parameter.  A raised Python
exception is an `Except.error`.
-/

namespace KhmerPdf

/-- A Python string, embedded as a list of characters. -/
abbrev Str := List Char

/-- The Unicode whitespace predicate used by Python `str.split()` and
`str.strip()` (CPython `Py_UNICODE_ISSPACE`): U+0009..U+000D,
U+001C..U+001F, space, U+0085, U+00A0, U+1680, U+2000..U+200A,
U+2028, U+2029, U+202F, U+205F and U+3000. -/
def pyIsSpace (c : Char) : Bool :=
  let n := c.toNat
  (9 ≤ n && n ≤ 13) || (28 ≤ n && n ≤ 31) || n == 32 || n == 0x85 ||
  n == 0xA0 || n == 0x1680 || (0x2000 ≤ n && n ≤ 0x200A) || n == 0x2028 ||
  n == 0x2029 || n == 0x202F || n == 0x205F || n == 0x3000

/-- Worker for `words`: `acc` holds the reversed current word. -/
def wordsAux : Str → Str → List Str
  | [], acc => if acc = [] then [] else [acc.reverse]
  | c :: cs, acc =>
    if pyIsSpace c then
      (if acc = [] then wordsAux cs [] else acc.reverse :: wordsAux cs [])
    else wordsAux cs (c :: acc)

/-- Python `s.split()` (no argument): the maximal whitespace-free runs
of `s`, in order; leading, trailing and repeated whitespace produce no
empty pieces. -/
def words (s : Str) : List Str := wordsAux s []

/-- Python `sep.join(pieces)` for a one-character separator. -/
def joinWith (sep : Char) : List Str → Str
  | [] => []
  | [t] => t
  | t :: ts => t ++ sep :: joinWith sep ts

/-- Python `' '.join(pieces)`. -/
def joinSpace : List Str → Str := joinWith ' '

/-- Python `'\n'.join(pieces)`, the page separator used by both PDF
extraction strategies. -/
def joinNL : List Str → Str := joinWith '\n'

/-- The whitespace-collapsing half of the normalizer:
`' '.join(s.split())`. -/
def collapse (s : Str) : Str := joinSpace (words s)

/-- Python `s.strip()` (no argument): remove leading and trailing
Unicode whitespace. -/
def pyStrip (s : Str) : Str :=
  ((s.dropWhile pyIsSpace).reverse.dropWhile pyIsSpace).reverse

/-- The normalization step shared by all three extraction routines:
`unicodedata.normalize('NFC', ' '.join(s.split()))`.  The NFC routine is
an external library call, passed in as the oracle `nfc`. -/
def normalizeText (nfc : Str → Str) (s : Str) : Str := nfc (collapse s)

example : words [' ', 'a', 'b', ' ', ' ', 'c', '\n'] = [['a', 'b'], ['c']] := by
  decide

example : collapse ['a', '\n', '\n', 'b', ' '] = ['a', ' ', 'b'] := by decide

example : pyStrip [' ', 'a', ' '] = ['a'] := by decide

/-!
## The PDF pipeline (khmer_pdf_parser.py)

A document is carried by its oracles:
* `openResult`: the outcome of `pdfplumber.open` — an exception, or the
  list of per-page `page.extract_text()` outcomes.  `extract_text`
  returning `None` and returning the empty string are behaviourally
  identical in this program (both are falsy), so a textless page is
  modelled as `.ok []`; a page whose extraction raises is `.error ()`.
* `rasterOcr lang`: the outcome of `convert_from_path` at 300 DPI
  followed by per-page `pytesseract.image_to_string(page, lang)` —
  an exception during rasterization, or a list of per-page OCR outcomes
  (each itself text or a raised OCR-engine exception).
-/

/-- The oracles of one input PDF. -/
structure PDFDoc where
  openResult : Except Unit (List (Except Unit Str))
  rasterOcr : String → Except Unit (List (Except Unit Str))

/-- Error kinds of the two strategies: the `ValueError("No text
extracted...")` raised by native extraction on an all-blank document,
and any exception propagated from the external engines. -/
inductive PErr
  | noTextFound
  | engine
deriving DecidableEq, Repr

/-- The page loop of `parse_khmer_text_native`: truthy page texts are
appended, falsy ones only warned about; a raising page aborts the loop
with the exception. -/
def collectNative : List (Except Unit Str) → Except Unit (List Str)
  | [] => .ok []
  | .error _ :: _ => .error ()
  | .ok s :: rest =>
    match collectNative rest with
    | .error e => .error e
    | .ok l => .ok (if s = [] then l else s :: l)

/-- Source `parse_khmer_text_native(pdf_path)`: open the PDF, gather the truthy
page texts, join them with newlines; raise `ValueError` if the joined
text is whitespace-only, else return the normalized text. -/
def parse_khmer_text_native (nfc : Str → Str) (d : PDFDoc) : Except PErr Str :=
  match d.openResult with
  | .error _ => .error .engine
  | .ok pages =>
    match collectNative pages with
    | .error _ => .error .engine
    | .ok texts =>
      let full := joinNL texts
      if pyStrip full = [] then .error .noTextFound
      else .ok (nfc (collapse full))

/-- The page loop of `parse_khmer_text_scanned`: every OCR output is
appended, empty or not; a raising OCR call aborts with the exception. -/
def collectOcr : List (Except Unit Str) → Except Unit (List Str)
  | [] => .ok []
  | .error _ :: _ => .error ()
  | .ok s :: rest =>
    match collectOcr rest with
    | .error e => .error e
    | .ok l => .ok (s :: l)

/-- Source `parse_khmer_text_scanned(pdf_path, lang)`: rasterize, OCR each page,
join all outputs with newlines and normalize.  No emptiness check. -/
def parse_khmer_text_scanned (nfc : Str → Str) (d : PDFDoc) (lang : String) :
    Except PErr Str :=
  match d.rasterOcr lang with
  | .error _ => .error .engine
  | .ok pages =>
    match collectOcr pages with
    | .error _ => .error .engine
    | .ok texts => .ok (nfc (collapse (joinNL texts)))

/-- The page loop of `detect_pdf_type`: first truthy `extract_text()`
result wins; a raised exception is caught by the surrounding handler and
yields the scanned default. -/
def detectPages : List (Except Unit Str) → String
  | [] => "scanned"
  | .error _ :: _ => "scanned"
  | .ok s :: rest => if s = [] then detectPages rest else "native"

/-- Source `detect_pdf_type(pdf_path)`: answer `'native'` on the first page with truthy
text, `'scanned'` otherwise, also when opening or extraction raises. -/
def detect_pdf_type (d : PDFDoc) : String :=
  match d.openResult with
  | .error _ => "scanned"
  | .ok pages => detectPages pages

/-- Instrumented detector loop: the classification together with the
number of `extract_text()` invocations performed. -/
def detectInstr : List (Except Unit Str) → String × Nat
  | [] => ("scanned", 0)
  | .error _ :: _ => ("scanned", 1)
  | .ok s :: rest =>
    if s = [] then
      let r := detectInstr rest
      (r.1, r.2 + 1)
    else ("native", 1)

/-- Source `parse_pdf(pdf_path, lang)`: classify, run the matching strategy,
fall back from a failing native attempt to OCR, and return the text or
`None`.  Every strategy exception is caught here. -/
def parse_pdf (nfc : Str → Str) (d : PDFDoc) (lang : String) : Option Str :=
  let t := detect_pdf_type d
  if t = "native" then
    match parse_khmer_text_native nfc d with
    | .ok s => some s
    | .error _ =>
      match parse_khmer_text_scanned nfc d lang with
      | .ok s => some s
      | .error _ => none
  else if t = "scanned" then
    match parse_khmer_text_scanned nfc d lang with
    | .ok s => some s
    | .error _ => none
  else none

/-- Instrumented orchestrator: the result of `parse_pdf` together with
the list of strategies invoked, in order (`"native"`, `"ocr"`). -/
def parse_pdf_trace (nfc : Str → Str) (d : PDFDoc) (lang : String) :
    Option Str × List String :=
  let t := detect_pdf_type d
  if t = "native" then
    match parse_khmer_text_native nfc d with
    | .ok s => (some s, ["native"])
    | .error _ =>
      match parse_khmer_text_scanned nfc d lang with
      | .ok s => (some s, ["native", "ocr"])
      | .error _ => (none, ["native", "ocr"])
  else if t = "scanned" then
    match parse_khmer_text_scanned nfc d lang with
    | .ok s => (some s, ["ocr"])
    | .error _ => (none, ["ocr"])
  else (none, [])

/-!
## The image pipeline (TextImage-KhParser.py)

Images are pixel grids.  `Image.open` is an oracle from the path to a
grid of RGB pixels (or a raised load error).  The four preprocessing
steps are embedded after PIL's arithmetic: `convert('L')` uses the
ITU-R 601-2 integer weights, `ImageEnhance.Contrast(...).enhance(2)`
extrapolates each pixel away from the rounded image mean with factor 2
and clips to 0..255, `point(lambda x: 0 if x < 140 else 255, '1')`
thresholds, and `ImageFilter.MedianFilter()` takes the median of each
3×3 neighbourhood with edge replication. -/

/-- One RGB pixel, channels 0..255. -/
structure RGB where
  r : Nat
  g : Nat
  b : Nat
deriving DecidableEq, Repr

/-- A pixel grid in row-major order. -/
abbrev Grid (α : Type) := List (List α)

/-- PIL `convert('L')` per-pixel luminance:
`(R*19595 + G*38470 + B*7471) >> 16`. -/
def rgbToL (c : RGB) : Nat := (c.r * 19595 + c.g * 38470 + c.b * 7471) / 65536

/-- Step 1: convert to single-channel grayscale. -/
def grayscale (g : Grid RGB) : Grid Nat := g.map (List.map rgbToL)

/-- Sum of all pixels of a grayscale grid. -/
def gridSum (g : Grid Nat) : Nat := (g.map List.sum).sum

/-- Number of pixels of a grid. -/
def gridCount (g : Grid Nat) : Nat := (g.map List.length).sum

/-- Python `int(mean + 0.5)`, the rounded image mean used by
`ImageEnhance.Contrast`. -/
def meanRound (g : Grid Nat) : Nat :=
  if gridCount g = 0 then 0
  else (2 * gridSum g + gridCount g) / (2 * gridCount g)

/-- Clip an integer into the byte range. -/
def clamp255 (x : Int) : Nat := (max 0 (min 255 x)).toNat

/-- Step 2: `ImageEnhance.Contrast(image).enhance(2)` — each pixel
becomes `clip(2*px - mean)`. -/
def contrastEnhance2 (g : Grid Nat) : Grid Nat :=
  let m := meanRound g
  g.map (List.map fun (x : Nat) => clamp255 (2 * (x : Int) - (m : Int)))

/-- Step 3: `image.point(lambda x: 0 if x < 140 else 255, '1')`. -/
def binarize (g : Grid Nat) : Grid Nat :=
  g.map (List.map fun x => if x < 140 then 0 else 255)

/-- Clamp an integer index into `0..n-1` (edge replication). -/
def clampIdx (n : Nat) (i : Int) : Nat :=
  if i < 0 then 0 else min i.toNat (n - 1)

/-- Pixel lookup with edge replication. -/
def getPxClamp (g : Grid Nat) (i j : Int) : Nat :=
  let row := g.getD (clampIdx g.length i) []
  row.getD (clampIdx row.length j) 0

/-- Insertion into a sorted list (ascending). -/
def insertLe (a : Nat) : List Nat → List Nat
  | [] => [a]
  | b :: bs => if a ≤ b then a :: b :: bs else b :: insertLe a bs

/-- Insertion sort, ascending. -/
def sortLe : List Nat → List Nat
  | [] => []
  | a :: as => insertLe a (sortLe as)

/-- The rank-4 element of a 9-element list: its median. -/
def median9 (l : List Nat) : Nat := (sortLe l).getD 4 0

/-- The 3×3 neighbourhood of pixel `(i, j)`, edges replicated. -/
def neighborhood (g : Grid Nat) (i j : Nat) : List Nat :=
  [getPxClamp g ((i : Int) - 1) ((j : Int) - 1),
   getPxClamp g ((i : Int) - 1) (j : Int),
   getPxClamp g ((i : Int) - 1) ((j : Int) + 1),
   getPxClamp g (i : Int) ((j : Int) - 1),
   getPxClamp g (i : Int) (j : Int),
   getPxClamp g (i : Int) ((j : Int) + 1),
   getPxClamp g ((i : Int) + 1) ((j : Int) - 1),
   getPxClamp g ((i : Int) + 1) (j : Int),
   getPxClamp g ((i : Int) + 1) ((j : Int) + 1)]

/-- Step 4: `image.filter(ImageFilter.MedianFilter())`. -/
def medianFilter (g : Grid Nat) : Grid Nat :=
  g.mapIdx fun i row => row.mapIdx fun j _ => median9 (neighborhood g i j)

/-- Source `preprocess_image(image_path)`: open the image (a load failure
propagates), then unconditionally apply the four steps in order. -/
def preprocess_image (fs : String → Except Unit (Grid RGB)) (path : String) :
    Except Unit (Grid Nat) :=
  match fs path with
  | .error e => .error e
  | .ok img => .ok (medianFilter (binarize (contrastEnhance2 (grayscale img))))

/-- Source `extract_text_from_image(image, lang)`: run OCR (the oracle value
`ocrOut` is the outcome of `pytesseract.image_to_string(image, lang)`)
and normalize its output; an OCR exception propagates. -/
def extract_text_from_image (nfc : Str → Str) (ocrOut : Except Unit Str) :
    Except Unit Str :=
  match ocrOut with
  | .error e => .error e
  | .ok t => .ok (nfc (collapse t))

/-!
## Auxiliary definitions for the statements
-/

/-- A piece produced by `words`: non-empty and whitespace-free. -/
def goodWord (w : Str) : Prop := w ≠ [] ∧ ∀ c ∈ w, pyIsSpace c = false

/-- Every whitespace character of `t` is a plain space. -/
def wsOnlySpace (t : Str) : Bool := t.all fun c => !pyIsSpace c || c == ' '

/-- True when `t` has no two consecutive space characters. -/
def noDoubleSpace : Str → Bool
  | a :: b :: l => !(a == ' ' && b == ' ') && noDoubleSpace (b :: l)
  | _ => true

/-- The whitespace discipline of every successful extraction result: the
only whitespace character is the single interior space — none leading,
none trailing, none doubled, and in particular no newline. -/
def outShape (t : Str) : Prop :=
  wsOnlySpace t = true ∧ noDoubleSpace t = true ∧
  t.head? ≠ some ' ' ∧ t.getLast? ≠ some ' ' ∧ '\n' ∉ t

/-- Pixel `(i, j)` of a grid, when in range. -/
def pixelAt (g : Grid Nat) (i j : Nat) : Option Nat :=
  g[i]?.bind fun row => row[j]?

/-- A document whose single page carries whitespace-only text (so it is
detected as native but native extraction fails) and which OCRs to "b". -/
def docNativeBlank : PDFDoc where
  openResult := .ok [.ok [' ']]
  rasterOcr := fun _ => .ok [.ok ['b']]

/-- A document with no pages whose rasterization raises. -/
def docRasterFail : PDFDoc where
  openResult := .ok []
  rasterOcr := fun _ => .error ()

/-- A document whose single page carries whitespace-only text and whose
single rasterized page OCRs to the empty string. -/
def docAllBlank : PDFDoc where
  openResult := .ok [.ok [' ']]
  rasterOcr := fun _ => .ok [.ok []]

/-- A document with no native pages whose single rasterized page OCRs to
the empty string. -/
def docOcrEmpty : PDFDoc where
  openResult := .ok []
  rasterOcr := fun _ => .ok [.ok []]

/-- A document with one native page reading "a". -/
def docNativeA : PDFDoc where
  openResult := .ok [.ok ['a']]
  rasterOcr := fun _ => .error ()

/-- A loader that always yields one fixed 2×2 image. -/
def fsTiny : String → Except Unit (Grid RGB) :=
  fun _ => .ok [[⟨0, 0, 0⟩, ⟨255, 255, 255⟩], [⟨10, 20, 30⟩, ⟨200, 100, 50⟩]]

/-!
## Lemmas about the normalizer
-/

theorem pyIsSpace_blank : pyIsSpace ' ' = true := by decide

theorem pyIsSpace_newline : pyIsSpace '\n' = true := by decide

theorem wordsAux_append_word (w rest acc : Str)
    (hw : ∀ c ∈ w, pyIsSpace c = false) :
    wordsAux (w ++ rest) acc = wordsAux rest (w.reverse ++ acc) := by
  induction w generalizing acc with
  | nil => simp
  | cons c cs ih =>
    have hc : pyIsSpace c = false := hw c (by simp)
    simp only [List.cons_append, wordsAux, hc, Bool.false_eq_true, if_false,
      List.append_eq]
    rw [ih (c :: acc) (fun x hx => hw x (by simp [hx]))]
    simp

theorem words_good (s : Str) : ∀ w ∈ words s, goodWord w := by
  have main : ∀ (s acc : Str), (∀ c ∈ acc, pyIsSpace c = false) →
      ∀ w ∈ wordsAux s acc, goodWord w := by
    intro s
    induction s with
    | nil =>
      intro acc hacc w hw
      by_cases h : acc = []
      · simp [wordsAux, h] at hw
      · simp only [wordsAux, h, if_false, List.mem_singleton] at hw
        subst hw
        exact ⟨by simpa using h, fun c hc => hacc c (List.mem_reverse.mp hc)⟩
    | cons c cs ih =>
      intro acc hacc w hw
      by_cases hc : pyIsSpace c = true
      · simp only [wordsAux, hc, if_true] at hw
        by_cases h : acc = []
        · simp only [h, if_true] at hw
          exact ih [] (by simp) w hw
        · simp only [h, if_false, List.mem_cons] at hw
          rcases hw with hw | hw
          · subst hw
            exact ⟨by simpa using h, fun x hx => hacc x (List.mem_reverse.mp hx)⟩
          · exact ih [] (by simp) w hw
      · simp only [wordsAux, hc, if_false] at hw
        refine ih (c :: acc) ?_ w hw
        intro x hx
        rcases List.mem_cons.mp hx with hx | hx
        · subst hx; simpa using hc
        · exact hacc x hx
  exact main s [] (by simp)

theorem joinSpace_cons_cons (w v : Str) (ws : List Str) :
    joinSpace (w :: v :: ws) = w ++ ' ' :: joinSpace (v :: ws) := rfl

theorem words_joinSpace (ws : List Str) (h : ∀ w ∈ ws, goodWord w) :
    words (joinSpace ws) = ws := by
  induction ws with
  | nil => rfl
  | cons w ws ih =>
    obtain ⟨hne, hfree⟩ := h w (by simp)
    cases ws with
    | nil =>
      show wordsAux (joinSpace [w]) [] = [w]
      have : joinSpace [w] = w ++ [] := by simp [joinSpace, joinWith]
      rw [this, wordsAux_append_word w [] [] hfree]
      simp [wordsAux, hne]
    | cons v vs =>
      show wordsAux (joinSpace (w :: v :: vs)) [] = w :: v :: vs
      rw [joinSpace_cons_cons, wordsAux_append_word w (' ' :: joinSpace (v :: vs)) [] hfree]
      have hrev : w.reverse ++ ([] : Str) = w.reverse := by simp
      rw [hrev]
      have hwrev : w.reverse ≠ [] := by simpa using hne
      simp only [wordsAux, pyIsSpace_blank, if_true, hwrev, if_false,
        List.reverse_reverse]
      have := ih (fun x hx => h x (by simp [hx]))
      exact congrArg (List.cons w) this

theorem collapse_idem (s : Str) : collapse (collapse s) = collapse s := by
  show joinSpace (words (collapse s)) = collapse s
  rw [show words (collapse s) = words s from words_joinSpace (words s) (words_good s)]
  rfl

theorem noDoubleSpace_cons_nonspace (a : Char) (l : Str)
    (ha : pyIsSpace a = false) : noDoubleSpace (a :: l) = noDoubleSpace l := by
  cases l with
  | nil => rfl
  | cons b bs =>
    have : (a == ' ') = false :=
      beq_eq_false_iff_ne.mpr (fun h => by rw [h] at ha; simp [pyIsSpace_blank] at ha)
    simp [noDoubleSpace, this]

theorem noDoubleSpace_append_word (w t : Str)
    (hw : ∀ c ∈ w, pyIsSpace c = false) (ht : noDoubleSpace t = true) :
    noDoubleSpace (w ++ t) = true := by
  induction w with
  | nil => simpa using ht
  | cons c cs ih =>
    have hc : pyIsSpace c = false := hw c (by simp)
    rw [List.cons_append, noDoubleSpace_cons_nonspace c (cs ++ t) hc]
    exact ih (fun x hx => hw x (by simp [hx]))

theorem joinSpace_head_nonspace (ws : List Str) (h : ∀ w ∈ ws, goodWord w) :
    ∀ c, (joinSpace ws).head? = some c → pyIsSpace c = false := by
  cases ws with
  | nil => intro c hc; simp [joinSpace, joinWith] at hc
  | cons w vs =>
    obtain ⟨hne, hfree⟩ := h w (by simp)
    intro c hc
    cases w with
    | nil => exact absurd rfl hne
    | cons a as =>
      have hh : (joinSpace ((a :: as) :: vs)).head? = some a := by
        cases vs with
        | nil => rfl
        | cons v vs2 => rfl
      rw [hh] at hc
      have hac : a = c := Option.some.inj hc
      rw [← hac]
      exact hfree a (by simp)

theorem noDoubleSpace_space_cons (t : Str)
    (hh : ∀ c, t.head? = some c → pyIsSpace c = false)
    (ht : noDoubleSpace t = true) : noDoubleSpace (' ' :: t) = true := by
  cases t with
  | nil => rfl
  | cons b bs =>
    have hb : pyIsSpace b = false := hh b rfl
    have : (b == ' ') = false :=
      beq_eq_false_iff_ne.mpr (fun h => by rw [h] at hb; simp [pyIsSpace_blank] at hb)
    simp [noDoubleSpace, this, ht]

theorem noDoubleSpace_joinSpace (ws : List Str) (h : ∀ w ∈ ws, goodWord w) :
    noDoubleSpace (joinSpace ws) = true := by
  induction ws with
  | nil => rfl
  | cons w vs ih =>
    obtain ⟨hne, hfree⟩ := h w (by simp)
    cases vs with
    | nil =>
      have : joinSpace [w] = w ++ [] := by simp [joinSpace, joinWith]
      rw [this]
      exact noDoubleSpace_append_word w [] hfree rfl
    | cons v vs2 =>
      rw [joinSpace_cons_cons]
      refine noDoubleSpace_append_word w (' ' :: joinSpace (v :: vs2)) hfree ?_
      refine noDoubleSpace_space_cons (joinSpace (v :: vs2)) ?_ ?_
      · exact joinSpace_head_nonspace (v :: vs2) (fun x hx => h x (by simp [hx]))
      · exact ih (fun x hx => h x (by simp [hx]))

theorem wsOnlySpace_joinSpace (ws : List Str) (h : ∀ w ∈ ws, goodWord w) :
    wsOnlySpace (joinSpace ws) = true := by
  induction ws with
  | nil => rfl
  | cons w vs ih =>
    obtain ⟨hne, hfree⟩ := h w (by simp)
    have hword : ∀ c ∈ w, (!pyIsSpace c || c == ' ') = true := by
      intro c hc; simp [hfree c hc]
    cases vs with
    | nil =>
      show List.all w _ = true
      exact List.all_eq_true.mpr hword
    | cons v vs2 =>
      rw [joinSpace_cons_cons]
      show List.all (w ++ ' ' :: joinSpace (v :: vs2)) _ = true
      rw [List.all_append, List.all_cons, Bool.and_eq_true, Bool.and_eq_true]
      exact ⟨List.all_eq_true.mpr hword, by decide,
        ih (fun x hx => h x (by simp [hx]))⟩

theorem joinSpace_ne_nil (w : Str) (ws : List Str) (hne : w ≠ []) :
    joinSpace (w :: ws) ≠ [] := by
  cases ws with
  | nil => simpa [joinSpace, joinWith] using hne
  | cons v vs =>
    rw [joinSpace_cons_cons]
    cases w with
    | nil => exact absurd rfl hne
    | cons a as => simp

theorem joinSpace_getLast_nonspace (ws : List Str) (h : ∀ w ∈ ws, goodWord w) :
    ∀ c, (joinSpace ws).getLast? = some c → pyIsSpace c = false := by
  induction ws with
  | nil => intro c hc; simp [joinSpace, joinWith] at hc
  | cons w vs ih =>
    obtain ⟨hne, hfree⟩ := h w (by simp)
    intro c hc
    cases vs with
    | nil =>
      have hjw : joinSpace [w] = w := rfl
      rw [hjw] at hc
      obtain ⟨hq, hcl⟩ := List.mem_getLast?_eq_getLast (Option.mem_def.mpr hc)
      exact hfree c (by rw [hcl]; exact List.getLast_mem hq)
    | cons v vs2 =>
      rw [joinSpace_cons_cons] at hc
      have hvne : joinSpace (v :: vs2) ≠ [] :=
        joinSpace_ne_nil v vs2 (h v (by simp)).1
      have hcc : (' ' :: joinSpace (v :: vs2)) ≠ [] := by simp
      rw [List.getLast?_append_of_ne_nil _ hcc] at hc
      have : (' ' :: joinSpace (v :: vs2)) = [' '] ++ joinSpace (v :: vs2) := rfl
      rw [this, List.getLast?_append_of_ne_nil _ hvne] at hc
      exact ih (fun x hx => h x (by simp [hx])) c hc

/-- The full shape of a collapse image: whitespace only as single
interior spaces, none leading or trailing. -/
theorem collapse_shape (s : Str) :
    wsOnlySpace (collapse s) = true ∧ noDoubleSpace (collapse s) = true ∧
    (collapse s).head? ≠ some ' ' ∧ (collapse s).getLast? ≠ some ' ' := by
  refine ⟨wsOnlySpace_joinSpace (words s) (words_good s),
    noDoubleSpace_joinSpace (words s) (words_good s), ?_, ?_⟩
  · intro hcon
    have := joinSpace_head_nonspace (words s) (words_good s) ' ' hcon
    simp [pyIsSpace_blank] at this
  · intro hcon
    have := joinSpace_getLast_nonspace (words s) (words_good s) ' ' hcon
    simp [pyIsSpace_blank] at this

theorem wsOnlySpace_no_newline (t : Str) (h : wsOnlySpace t = true) :
    '\n' ∉ t := by
  intro hmem
  have := List.all_eq_true.mp h '\n' hmem
  revert this
  decide

theorem pyStrip_eq_nil_iff (s : Str) :
    pyStrip s = [] ↔ ∀ c ∈ s, pyIsSpace c = true := by
  unfold pyStrip
  rw [List.reverse_eq_nil_iff, List.dropWhile_eq_nil_iff]
  constructor
  · intro h c hc
    have hc2 : c ∈ (s.takeWhile pyIsSpace) ++ s.dropWhile pyIsSpace := by
      rw [List.takeWhile_append_dropWhile]
      exact hc
    rcases List.mem_append.mp hc2 with hm | hm
    · exact List.mem_takeWhile_imp hm
    · exact h c (List.mem_reverse.mpr hm)
  · intro h c hc
    exact h c (List.dropWhile_subset pyIsSpace (List.mem_reverse.mp hc))

theorem words_eq_nil_iff (s : Str) :
    words s = [] ↔ ∀ c ∈ s, pyIsSpace c = true := by
  have main : ∀ (s acc : Str),
      wordsAux s acc = [] ↔ acc = [] ∧ ∀ c ∈ s, pyIsSpace c = true := by
    intro s
    induction s with
    | nil =>
      intro acc
      by_cases h : acc = [] <;> simp [wordsAux, h]
    | cons c cs ih =>
      intro acc
      cases hc : pyIsSpace c with
      | true =>
        by_cases h : acc = []
        · simp only [wordsAux, hc, if_true, h, if_true]
          rw [ih []]
          simp [hc, h]
        · simp [wordsAux, hc, h]
      | false =>
        simp only [wordsAux, hc, Bool.false_eq_true, if_false]
        rw [ih (c :: acc)]
        simp [hc]
  rw [show words s = wordsAux s [] from rfl, main s []]
  simp

theorem mem_joinWith (sep : Char) (ts : List Str) (c : Char)
    (h : c ∈ joinWith sep ts) : c = sep ∨ ∃ t ∈ ts, c ∈ t := by
  induction ts with
  | nil => simp [joinWith] at h
  | cons t ts ih =>
    cases ts with
    | nil =>
      right
      exact ⟨t, by simp, by simpa [joinWith] using h⟩
    | cons v vs =>
      have : joinWith sep (t :: v :: vs) = t ++ sep :: joinWith sep (v :: vs) := rfl
      rw [this] at h
      rcases List.mem_append.mp h with hm | hm
      · exact Or.inr ⟨t, by simp, hm⟩
      · rcases List.mem_cons.mp hm with hm | hm
        · exact Or.inl hm
        · rcases ih hm with hm | ⟨u, hu, hcu⟩
          · exact Or.inl hm
          · exact Or.inr ⟨u, by simp [hu], hcu⟩

theorem collapse_eq_nil_of_all_space (s : Str)
    (h : ∀ c ∈ s, pyIsSpace c = true) : collapse s = [] := by
  unfold collapse
  rw [(words_eq_nil_iff s).mpr h]
  rfl

theorem pyStrip_collapse_ne_nil (s : Str) (h : pyStrip s ≠ []) :
    pyStrip (collapse s) ≠ [] := by
  intro hcon
  apply h
  rw [pyStrip_eq_nil_iff] at hcon ⊢
  intro c hc
  by_contra hns
  have hns2 : pyIsSpace c = false := Bool.eq_false_iff.mpr hns
  have hw : words s ≠ [] := by
    intro hnil
    have hct := (words_eq_nil_iff s).mp hnil c hc
    rw [hns2] at hct
    exact Bool.false_ne_true hct
  cases hws : words s with
  | nil => exact hw hws
  | cons w ws =>
    obtain ⟨hne, hfree⟩ := words_good s w (by rw [hws]; simp)
    cases w with
    | nil => exact hne rfl
    | cons a as =>
      have hmem : a ∈ collapse s := by
        unfold collapse
        rw [hws]
        cases ws with
        | nil => simp [joinSpace, joinWith]
        | cons v vs => rw [joinSpace_cons_cons]; simp
      have := hcon a hmem
      have hfa := hfree a (by simp)
      rw [this] at hfa
      cases hfa

/-!
## Lemmas about the detector and the orchestrator
-/

theorem detectPages_cases (pages : List (Except Unit Str)) :
    detectPages pages = "native" ∨ detectPages pages = "scanned" := by
  induction pages with
  | nil => right; rfl
  | cons p rest ih =>
    cases p with
    | error e => right; rfl
    | ok s =>
      by_cases h : s = []
      · simpa [detectPages, h] using ih
      · simp [detectPages, h]

theorem detect_cases (d : PDFDoc) :
    detect_pdf_type d = "native" ∨ detect_pdf_type d = "scanned" := by
  unfold detect_pdf_type
  cases d.openResult with
  | error e => right; rfl
  | ok pages => exact detectPages_cases pages

theorem detectInstr_fst (pages : List (Except Unit Str)) :
    (detectInstr pages).1 = detectPages pages := by
  induction pages with
  | nil => rfl
  | cons p rest ih =>
    cases p with
    | error e => rfl
    | ok s =>
      by_cases h : s = []
      · simpa [detectInstr, detectPages, h] using ih
      · simp [detectInstr, detectPages, h]

theorem exceptUnit_cases {α : Type} (x : Except Unit α) :
    x = .error () ∨ ∃ a, x = .ok a := by
  cases x with
  | error e => left; rfl
  | ok a => exact Or.inr ⟨a, rfl⟩

theorem collectOcr_error_iff (pages : List (Except Unit Str)) :
    collectOcr pages = .error () ↔ Except.error () ∈ pages := by
  induction pages with
  | nil => simp [collectOcr]
  | cons p rest ih =>
    cases p with
    | error e =>
      cases e
      simp [collectOcr]
    | ok s =>
      simp only [collectOcr]
      cases hr : collectOcr rest with
      | error e =>
        cases e
        simp only [List.mem_cons]
        constructor
        · intro _
          exact Or.inr (ih.mp hr)
        · intro _
          trivial
      | ok l =>
        simp only [List.mem_cons]
        constructor
        · intro h
          exact Except.noConfusion h
        · rintro (h | h)
          · exact Except.noConfusion h
          · have h2 := ih.mpr h
            rw [h2] at hr
            exact Except.noConfusion hr

theorem collectOcr_ok (pages : List (Except Unit Str))
    (h : ∀ p ∈ pages, ∃ s, p = .ok s) : ∃ l, collectOcr pages = .ok l := by
  rcases exceptUnit_cases (collectOcr pages) with he | hok
  · exfalso
    rcases (collectOcr_error_iff pages).mp he with hmem
    rcases h _ hmem with ⟨s, hs⟩
    cases hs
  · exact hok

theorem scanned_raster_err (nfc : Str → Str) (d : PDFDoc) (lang : String)
    (he : d.rasterOcr lang = .error ()) :
    parse_khmer_text_scanned nfc d lang = .error .engine := by
  simp only [parse_khmer_text_scanned, he]

theorem scanned_collect_err (nfc : Str → Str) (d : PDFDoc) (lang : String)
    (pages : List (Except Unit Str)) (hp : d.rasterOcr lang = .ok pages)
    (hce : collectOcr pages = .error ()) :
    parse_khmer_text_scanned nfc d lang = .error .engine := by
  simp only [parse_khmer_text_scanned, hp, hce]

theorem scanned_collect_ok (nfc : Str → Str) (d : PDFDoc) (lang : String)
    (pages : List (Except Unit Str)) (l : List Str)
    (hp : d.rasterOcr lang = .ok pages) (hcl : collectOcr pages = .ok l) :
    parse_khmer_text_scanned nfc d lang = .ok (nfc (collapse (joinNL l))) := by
  simp only [parse_khmer_text_scanned, hp, hcl]

theorem native_open_err (nfc : Str → Str) (d : PDFDoc)
    (he : d.openResult = .error ()) :
    parse_khmer_text_native nfc d = .error .engine := by
  simp only [parse_khmer_text_native, he]

theorem native_collect_err (nfc : Str → Str) (d : PDFDoc)
    (pages : List (Except Unit Str)) (hp : d.openResult = .ok pages)
    (hce : collectNative pages = .error ()) :
    parse_khmer_text_native nfc d = .error .engine := by
  simp only [parse_khmer_text_native, hp, hce]

theorem native_collect_ok (nfc : Str → Str) (d : PDFDoc)
    (pages : List (Except Unit Str)) (texts : List Str)
    (hp : d.openResult = .ok pages) (hcl : collectNative pages = .ok texts) :
    parse_khmer_text_native nfc d =
      (if pyStrip (joinNL texts) = [] then .error .noTextFound
       else .ok (nfc (collapse (joinNL texts)))) := by
  simp only [parse_khmer_text_native, hp, hcl]

theorem scanned_error_iff (nfc : Str → Str) (d : PDFDoc) (lang : String) :
    (∃ e, parse_khmer_text_scanned nfc d lang = .error e) ↔
      (d.rasterOcr lang = .error () ∨
        ∃ pages, d.rasterOcr lang = .ok pages ∧ Except.error () ∈ pages) := by
  rcases exceptUnit_cases (d.rasterOcr lang) with he | ⟨pages, hp⟩
  · rw [scanned_raster_err nfc d lang he]
    simp [he]
  · rcases exceptUnit_cases (collectOcr pages) with hce | ⟨l, hcl⟩
    · rw [scanned_collect_err nfc d lang pages hp hce]
      have hmem := (collectOcr_error_iff pages).mp hce
      constructor
      · intro _
        exact Or.inr ⟨pages, hp, hmem⟩
      · intro _
        exact ⟨.engine, rfl⟩
    · rw [scanned_collect_ok nfc d lang pages l hp hcl]
      constructor
      · rintro ⟨e, he⟩
        exact Except.noConfusion he
      · rintro (h | ⟨pages2, hp2, hmem⟩)
        · rw [h] at hp
          exact Except.noConfusion hp
        · rw [hp] at hp2
          cases hp2
          have hcerr := (collectOcr_error_iff pages).mpr hmem
          rw [hcerr] at hcl
          exact Except.noConfusion hcl

theorem parse_pdf_native_ok (nfc : Str → Str) (d : PDFDoc) (lang : String)
    (hdet : detect_pdf_type d = "native") (s : Str)
    (hn : parse_khmer_text_native nfc d = .ok s) :
    parse_pdf nfc d lang = some s := by
  simp [parse_pdf, hdet, hn]

theorem parse_pdf_native_err (nfc : Str → Str) (d : PDFDoc) (lang : String)
    (hdet : detect_pdf_type d = "native") (e : PErr)
    (hn : parse_khmer_text_native nfc d = .error e) :
    parse_pdf nfc d lang = (parse_khmer_text_scanned nfc d lang).toOption := by
  simp only [parse_pdf, hdet, if_pos rfl, hn]
  cases parse_khmer_text_scanned nfc d lang <;> rfl

theorem parse_pdf_scanned_eq (nfc : Str → Str) (d : PDFDoc) (lang : String)
    (hdet : detect_pdf_type d = "scanned") :
    parse_pdf nfc d lang = (parse_khmer_text_scanned nfc d lang).toOption := by
  have hne : detect_pdf_type d ≠ "native" := by rw [hdet]; decide
  simp only [parse_pdf, hdet]
  norm_num
  cases parse_khmer_text_scanned nfc d lang <;> rfl

theorem parse_pdf_trace_scanned (nfc : Str → Str) (d : PDFDoc) (lang : String)
    (hdet : detect_pdf_type d = "scanned") :
    (parse_pdf_trace nfc d lang).2 = ["ocr"] := by
  simp only [parse_pdf_trace, hdet]
  norm_num
  cases parse_khmer_text_scanned nfc d lang <;> rfl

theorem parse_pdf_trace_fst (nfc : Str → Str) (d : PDFDoc) (lang : String) :
    (parse_pdf_trace nfc d lang).1 = parse_pdf nfc d lang := by
  unfold parse_pdf_trace parse_pdf
  rcases detect_cases d with h | h <;> rw [h] <;> norm_num
  · cases parse_khmer_text_native nfc d with
    | ok s => rfl
    | error e => cases parse_khmer_text_scanned nfc d lang <;> rfl
  · cases parse_khmer_text_scanned nfc d lang <;> rfl

theorem collectNative_ok_all (pages : List (Except Unit Str))
    (h : ∀ p ∈ pages, ∃ s, p = .ok s) :
    ∃ texts, collectNative pages = .ok texts ∧
      ∀ t ∈ texts, Except.ok t ∈ pages := by
  induction pages with
  | nil => exact ⟨[], rfl, by simp⟩
  | cons p rest ih =>
    obtain ⟨s, hs⟩ := h p (by simp)
    subst hs
    obtain ⟨texts, hok, hmem⟩ := ih (fun q hq => h q (by simp [hq]))
    refine ⟨if s = [] then texts else s :: texts, ?_, ?_⟩
    · simp only [collectNative, hok]
    · intro t ht
      by_cases hnil : s = []
      · rw [if_pos hnil] at ht
        exact List.mem_cons_of_mem _ (hmem t ht)
      · rw [if_neg hnil] at ht
        rcases List.mem_cons.mp ht with hts | hts
        · subst hts
          exact List.mem_cons_self _ _
        · exact List.mem_cons_of_mem _ (hmem t hts)

theorem native_success_shape (nfc : Str → Str) (d : PDFDoc) (s : Str)
    (h : parse_khmer_text_native nfc d = .ok s) :
    ∃ u, s = nfc (collapse u) ∧ pyStrip u ≠ [] := by
  rcases exceptUnit_cases d.openResult with he | ⟨pages, hp⟩
  · rw [native_open_err nfc d he] at h
    exact Except.noConfusion h
  · rcases exceptUnit_cases (collectNative pages) with hce | ⟨texts, hcl⟩
    · rw [native_collect_err nfc d pages hp hce] at h
      exact Except.noConfusion h
    · rw [native_collect_ok nfc d pages texts hp hcl] at h
      by_cases hstrip : pyStrip (joinNL texts) = []
      · rw [if_pos hstrip] at h
        exact Except.noConfusion h
      · rw [if_neg hstrip] at h
        exact ⟨joinNL texts, (Except.ok.inj h).symm, hstrip⟩

theorem scanned_success_shape (nfc : Str → Str) (d : PDFDoc) (lang : String)
    (s : Str) (h : parse_khmer_text_scanned nfc d lang = .ok s) :
    ∃ u, s = nfc (collapse u) := by
  rcases exceptUnit_cases (d.rasterOcr lang) with he | ⟨pages, hp⟩
  · rw [scanned_raster_err nfc d lang he] at h
    exact Except.noConfusion h
  · rcases exceptUnit_cases (collectOcr pages) with hce | ⟨l, hcl⟩
    · rw [scanned_collect_err nfc d lang pages hp hce] at h
      exact Except.noConfusion h
    · rw [scanned_collect_ok nfc d lang pages l hp hcl] at h
      exact ⟨joinNL l, (Except.ok.inj h).symm⟩

theorem outShape_collapse (u : Str) : outShape (collapse u) := by
  obtain ⟨h1, h2, h3, h4⟩ := collapse_shape u
  exact ⟨h1, h2, h3, h4, wsOnlySpace_no_newline _ h1⟩

theorem outShape_of_fixed (t : Str) (h : collapse t = t) : outShape t := by
  rw [← h]
  exact outShape_collapse t

theorem pixelAt_map (f : Nat → Nat) (g : Grid Nat) (i j : Nat) :
    pixelAt (g.map (List.map f)) i j = (pixelAt g i j).map f := by
  unfold pixelAt
  rw [List.getElem?_map]
  cases g[i]? with
  | none => rfl
  | some row => simp [List.getElem?_map]

theorem parse_pdf_char (nfc : Str → Str) (d : PDFDoc) (lang : String) :
    (parse_pdf nfc d lang = none ↔
      ((∃ e, parse_khmer_text_scanned nfc d lang = .error e)
        ∧ (detect_pdf_type d = "native" →
            ∃ e, parse_khmer_text_native nfc d = .error e)))
    ∧ (∀ s, parse_pdf nfc d lang = some s →
        parse_khmer_text_native nfc d = .ok s
          ∨ parse_khmer_text_scanned nfc d lang = .ok s) := by
  rcases detect_cases d with hdet | hdet
  · cases hn : parse_khmer_text_native nfc d with
    | ok s =>
      have heq := parse_pdf_native_ok nfc d lang hdet s hn
      constructor
      · rw [heq]
        constructor
        · intro h
          exact Option.noConfusion h
        · rintro ⟨_, himp⟩
          obtain ⟨e, he⟩ := himp hdet
          exact Except.noConfusion he
      · intro t ht
        rw [heq] at ht
        exact Or.inl (by rw [Option.some.inj ht])
    | error e =>
      have heq := parse_pdf_native_err nfc d lang hdet e hn
      cases hs : parse_khmer_text_scanned nfc d lang with
      | ok t =>
        rw [hs] at heq
        constructor
        · rw [heq]
          constructor
          · intro h
            exact Option.noConfusion h
          · rintro ⟨⟨e2, he2⟩, _⟩
            exact Except.noConfusion he2
        · intro u hu
          rw [heq] at hu
          have hu2 : some t = some u := hu
          exact Or.inr (by rw [Option.some.inj hu2])
      | error e2 =>
        rw [hs] at heq
        constructor
        · rw [heq]
          exact ⟨fun _ => ⟨⟨e2, rfl⟩, fun _ => ⟨e, rfl⟩⟩, fun _ => rfl⟩
        · intro u hu
          rw [heq] at hu
          have hu2 : (none : Option Str) = some u := hu
          exact Option.noConfusion hu2
  · have hnn : detect_pdf_type d = "native" →
        ∃ e, parse_khmer_text_native nfc d = .error e := by
      intro hcon
      rw [hdet] at hcon
      exact absurd hcon (by decide)
    have heq := parse_pdf_scanned_eq nfc d lang hdet
    cases hs : parse_khmer_text_scanned nfc d lang with
    | ok t =>
      rw [hs] at heq
      constructor
      · rw [heq]
        constructor
        · intro h
          exact Option.noConfusion h
        · rintro ⟨⟨e2, he2⟩, _⟩
          exact Except.noConfusion he2
      · intro u hu
        rw [heq] at hu
        have hu2 : some t = some u := hu
        exact Or.inr (by rw [Option.some.inj hu2])
    | error e2 =>
      rw [hs] at heq
      constructor
      · rw [heq]
        exact ⟨fun _ => ⟨⟨e2, rfl⟩, hnn⟩, fun _ => rfl⟩
      · intro u hu
        rw [heq] at hu
        have hu2 : (none : Option Str) = some u := hu
        exact Option.noConfusion hu2

theorem parse_pdf_none_iff (nfc : Str → Str) (d : PDFDoc) (lang : String) :
    parse_pdf nfc d lang = none ↔
      ((∃ e, parse_khmer_text_scanned nfc d lang = .error e)
        ∧ (detect_pdf_type d = "native" →
            ∃ e, parse_khmer_text_native nfc d = .error e)) :=
  (parse_pdf_char nfc d lang).1

theorem parse_pdf_some_src (nfc : Str → Str) (d : PDFDoc) (lang : String) :
    ∀ s, parse_pdf nfc d lang = some s →
      parse_khmer_text_native nfc d = .ok s
        ∨ parse_khmer_text_scanned nfc d lang = .ok s :=
  (parse_pdf_char nfc d lang).2

/-!
## The claims
-/

/-- C5: the text normalization step — split on any whitespace run,
rejoin with single spaces, then apply Unicode NFC — is idempotent:
`normalize(normalize(x)) = normalize(x)` for every string `x`, given
that the external NFC routine is idempotent and maps
whitespace-collapsed strings to whitespace-collapsed strings (both are
Unicode guarantees of NFC: canonical composition neither creates nor
destroys whitespace and is itself idempotent). -/
theorem C5_normalize_idempotent (nfc : Str → Str)
    (hidem : ∀ t, nfc (nfc t) = nfc t)
    (hcoll : ∀ t, collapse t = t → collapse (nfc t) = nfc t) (x : Str) :
    normalizeText nfc (normalizeText nfc x) = normalizeText nfc x := by
  unfold normalizeText
  rw [hcoll (collapse x) (collapse_idem x), hidem]

/-- C5 witness: the theorem applied to the identity NFC oracle at a
concrete string. -/
theorem C5_witness :
    normalizeText id (normalizeText id [' ', 'a', '\n', 'b']) =
      normalizeText id [' ', 'a', '\n', 'b'] :=
  C5_normalize_idempotent id (fun _ => rfl) (fun _ h => h) [' ', 'a', '\n', 'b']

/-- C2: the detector iterates pages in order and answers 'native' on the
first page with truthy text, having invoked extraction exactly once per
page inspected up to and including that page — never on any later page
(the count is independent of the tail); when every page is textless it
answers 'scanned'; and an error while opening or extracting is swallowed
into the 'scanned' default, never propagated (the detector is a total
function into the two labels). -/
theorem C2_detect_shortcircuit :
    (∀ (pre : List (Except Unit Str)) (s : Str) (rest : List (Except Unit Str)),
        (∀ p ∈ pre, p = Except.ok ([] : Str)) → s ≠ [] →
        detectInstr (pre ++ .ok s :: rest) = ("native", pre.length + 1))
    ∧ (∀ pages : List (Except Unit Str),
        (∀ p ∈ pages, p = Except.ok ([] : Str)) → detectPages pages = "scanned")
    ∧ (∀ d : PDFDoc, d.openResult = .error () → detect_pdf_type d = "scanned")
    ∧ (∀ (pre rest : List (Except Unit Str)),
        (∀ p ∈ pre, p = Except.ok ([] : Str)) →
        detectPages (pre ++ .error () :: rest) = "scanned")
    ∧ (∀ pages, (detectInstr pages).1 = detectPages pages) := by
  refine ⟨?_, ?_, ?_, ?_, detectInstr_fst⟩
  · intro pre s rest hpre hs
    induction pre with
    | nil => simp [detectInstr, hs]
    | cons p pre ih =>
      have hp : p = Except.ok ([] : Str) := hpre p (by simp)
      subst hp
      have hih := ih (fun q hq => hpre q (by simp [hq]))
      simp [detectInstr, hih]
  · intro pages hpages
    induction pages with
    | nil => rfl
    | cons p rest ih =>
      have hp : p = Except.ok ([] : Str) := hpages p (by simp)
      subst hp
      simp only [detectPages, if_pos rfl]
      exact ih (fun q hq => hpages q (by simp [hq]))
  · intro d hd
    unfold detect_pdf_type
    rw [hd]
  · intro pre rest hpre
    induction pre with
    | nil => rfl
    | cons p pre ih =>
      have hp : p = Except.ok ([] : Str) := hpre p (by simp)
      subst hp
      simp only [List.cons_append, detectPages, if_pos rfl]
      exact ih (fun q hq => hpre q (by simp [hq]))

/-- C2 witness: a three-page document whose second page has text is
classified native with exactly two extraction calls, regardless of the
third page; and the swallowing conjuncts at concrete error documents. -/
theorem C2_witness :
    detectInstr [Except.ok ([] : Str), .ok ['x'], .error ()] = ("native", 2)
    ∧ detectPages [Except.ok ([] : Str), .ok []] = "scanned"
    ∧ detect_pdf_type { openResult := .error (), rasterOcr := fun _ => .error () } = "scanned"
    ∧ detectPages [Except.ok ([] : Str), .error ()] = "scanned" := by
  refine ⟨?_, ?_, ?_, ?_⟩
  · exact C2_detect_shortcircuit.1 [.ok []] ['x'] [.error ()]
      (by intro p hp; simpa using hp) (by simp)
  · exact C2_detect_shortcircuit.2.1 [.ok [], .ok []]
      (by intro p hp; rcases List.mem_cons.mp hp with h | h
          · exact h
          · simpa using h)
  · exact C2_detect_shortcircuit.2.2.1 _ rfl
  · exact C2_detect_shortcircuit.2.2.2.1 [.ok []] [] (by intro p hp; simpa using hp)

/-- C1: if the detector classifies a document as native and the native
strategy fails, `parse_pdf` falls back to OCR on the same document and
returns exactly the OCR strategy's result, None when OCR fails too;
and when the detector classifies scanned, the orchestrator's result is
exactly the OCR result and its strategy trace is just the one OCR
attempt — no native attempt is ever made in that branch. -/
theorem C1_fallback (nfc : Str → Str) (d : PDFDoc) (lang : String) :
    (detect_pdf_type d = "native" →
      (∃ e, parse_khmer_text_native nfc d = .error e) →
      parse_pdf nfc d lang = (parse_khmer_text_scanned nfc d lang).toOption
        ∧ ((∃ e2, parse_khmer_text_scanned nfc d lang = .error e2) →
            parse_pdf nfc d lang = none))
    ∧ (detect_pdf_type d = "scanned" →
        parse_pdf nfc d lang = (parse_khmer_text_scanned nfc d lang).toOption
          ∧ (parse_pdf_trace nfc d lang).2 = ["ocr"]) := by
  constructor
  · rintro hdet ⟨e, he⟩
    have heq := parse_pdf_native_err nfc d lang hdet e he
    refine ⟨heq, ?_⟩
    rintro ⟨e2, he2⟩
    rw [heq, he2]
    rfl
  · intro hdet
    exact ⟨parse_pdf_scanned_eq nfc d lang hdet,
      parse_pdf_trace_scanned nfc d lang hdet⟩

/-- C1 witness: a whitespace-only native page makes the detector say
native while native extraction fails, and the orchestrator returns the
OCR result "b"; and on a scanned-classified document whose OCR raises,
the result is None with an OCR-only trace. -/
theorem C1_witness :
    (parse_pdf id docNativeBlank "khm" =
        (parse_khmer_text_scanned id docNativeBlank "khm").toOption)
    ∧ parse_pdf id docRasterFail "khm" =
        (parse_khmer_text_scanned id docRasterFail "khm").toOption
    ∧ (parse_pdf_trace id docRasterFail "khm").2 = ["ocr"] := by
  refine ⟨?_, ?_, ?_⟩
  · exact ((C1_fallback id docNativeBlank "khm").1 rfl ⟨.noTextFound, rfl⟩).1
  · exact ((C1_fallback id docRasterFail "khm").2 rfl).1
  · exact ((C1_fallback id docRasterFail "khm").2 rfl).2

/-- C4: the orchestrator is total — for every document, NFC oracle and
language it returns an optional value, never letting a strategy failure
escape: it returns None exactly when the OCR strategy failed and, in
case the document was classified native, the native strategy failed
first; and any returned text is exactly one strategy's successful
result. -/
theorem C4_orchestrator_total (nfc : Str → Str) (d : PDFDoc) (lang : String) :
    (parse_pdf nfc d lang = none ↔
      ((∃ e, parse_khmer_text_scanned nfc d lang = .error e)
        ∧ (detect_pdf_type d = "native" →
            ∃ e, parse_khmer_text_native nfc d = .error e)))
    ∧ (∀ s, parse_pdf nfc d lang = some s →
        parse_khmer_text_native nfc d = .ok s
          ∨ parse_khmer_text_scanned nfc d lang = .ok s) :=
  ⟨parse_pdf_none_iff nfc d lang, parse_pdf_some_src nfc d lang⟩

/-- C4 witness: the characterization applied at a concrete failing
document (no text anywhere, OCR raising) and at a concrete succeeding
one. -/
theorem C4_witness :
    parse_pdf id docRasterFail "khm" = none
    ∧ (parse_khmer_text_native id docNativeA = .ok ['a']
        ∨ parse_khmer_text_scanned id docNativeA "khm" = .ok ['a']) := by
  constructor
  · exact (C4_orchestrator_total id docRasterFail "khm").1.mpr
      ⟨⟨.engine, rfl⟩, fun h => absurd h (by decide)⟩
  · exact (C4_orchestrator_total id docNativeA "khm").2 ['a'] rfl

/-- C9: the detector returns one of exactly the two labels 'native' and
'scanned' for every document, so the unknown-type else-branch of
`parse_pdf` is unreachable: a None result always comes from one of the
two strategy branches with a failing OCR attempt, never from the
else-branch. -/
theorem C9_detector_closed (nfc : Str → Str) (d : PDFDoc) (lang : String) :
    (detect_pdf_type d = "native" ∨ detect_pdf_type d = "scanned")
    ∧ (parse_pdf nfc d lang = none →
        (detect_pdf_type d = "native"
            ∧ (∃ e, parse_khmer_text_native nfc d = .error e)
            ∧ (∃ e, parse_khmer_text_scanned nfc d lang = .error e))
          ∨ (detect_pdf_type d = "scanned"
            ∧ (∃ e, parse_khmer_text_scanned nfc d lang = .error e))) := by
  refine ⟨detect_cases d, ?_⟩
  intro hnone
  obtain ⟨⟨e2, hs⟩, himp⟩ := (parse_pdf_none_iff nfc d lang).mp hnone
  rcases detect_cases d with hdet | hdet
  · exact Or.inl ⟨hdet, himp hdet, ⟨e2, hs⟩⟩
  · exact Or.inr ⟨hdet, ⟨e2, hs⟩⟩

/-- C9 witness: the None result of a concrete failing document is
accounted for by a strategy branch (here the scanned branch). -/
theorem C9_witness :
    (detect_pdf_type docRasterFail = "native"
        ∧ (∃ e, parse_khmer_text_native id docRasterFail = .error e)
        ∧ (∃ e, parse_khmer_text_scanned id docRasterFail "khm" = .error e))
      ∨ (detect_pdf_type docRasterFail = "scanned"
        ∧ (∃ e, parse_khmer_text_scanned id docRasterFail "khm" = .error e)) :=
  (C9_detector_closed id docRasterFail "khm").2 rfl

/-- C3: native extraction over a document all of whose pages yield only
whitespace (or no) text fails with the NoTextFound error, while OCR
extraction never fails merely because every per-page output is empty —
it fails exactly when rasterization or an OCR call raises. -/
theorem C3_empty_policy (nfc : Str → Str) :
    (∀ (d : PDFDoc) (pages : List (Except Unit Str)),
        d.openResult = .ok pages →
        (∀ p ∈ pages, ∃ s, p = .ok s ∧ ∀ c ∈ s, pyIsSpace c = true) →
        parse_khmer_text_native nfc d = .error .noTextFound)
    ∧ (∀ (d : PDFDoc) (lang : String) (pages : List (Except Unit Str)),
        d.rasterOcr lang = .ok pages →
        (∀ p ∈ pages, ∃ s, p = .ok s) →
        ∃ t, parse_khmer_text_scanned nfc d lang = .ok t)
    ∧ (∀ (d : PDFDoc) (lang : String),
        (∃ e, parse_khmer_text_scanned nfc d lang = .error e) ↔
          (d.rasterOcr lang = .error () ∨
            ∃ pages, d.rasterOcr lang = .ok pages ∧ Except.error () ∈ pages)) := by
  refine ⟨?_, ?_, fun d lang => scanned_error_iff nfc d lang⟩
  · intro d pages hp hall
    obtain ⟨texts, hok, hmem⟩ := collectNative_ok_all pages
      (fun p hp2 => (hall p hp2).imp fun s hs => hs.1)
    have hstrip : pyStrip (joinNL texts) = [] := by
      rw [pyStrip_eq_nil_iff]
      intro c hc
      rcases mem_joinWith '\n' texts c hc with hnl | ⟨t, ht, hct⟩
      · rw [hnl]
        exact pyIsSpace_newline
      · obtain hp3 := hmem t ht
        obtain ⟨s, hs, hspace⟩ := hall _ hp3
        have hts : t = s := Except.ok.inj hs
        exact hspace c (hts ▸ hct)
    rw [native_collect_ok nfc d pages texts hp hok, if_pos hstrip]
  · intro d lang pages hp hall
    obtain ⟨l, hl⟩ := collectOcr_ok pages hall
    exact ⟨_, scanned_collect_ok nfc d lang pages l hp hl⟩

/-- C3 witness: on a document whose single page reads " " and whose
single rasterized page OCRs to the empty string, native extraction fails
with NoTextFound while OCR succeeds; and OCR fails on a document whose
rasterization raises. -/
theorem C3_witness :
    parse_khmer_text_native id docAllBlank = .error .noTextFound
    ∧ (∃ t, parse_khmer_text_scanned id docAllBlank "khm" = .ok t)
    ∧ (∃ e, parse_khmer_text_scanned id docRasterFail "khm" = .error e) := by
  refine ⟨?_, ?_, ?_⟩
  · exact (C3_empty_policy id).1 docAllBlank [.ok [' ']] rfl
      (by intro p hp
          have hpe : p = Except.ok [' '] := by simpa using hp
          exact ⟨[' '], hpe, by decide⟩)
  · exact (C3_empty_policy id).2.1 docAllBlank "khm" [.ok []] rfl
      (by intro p hp
          have hpe : p = Except.ok [] := by simpa using hp
          exact ⟨[], hpe⟩)
  · exact ((C3_empty_policy id).2.2 docRasterFail "khm").mpr (Or.inl rfl)

/-- C8 counterexample: the OCR strategy returns successfully with text
that is empty after whitespace trimming — on a document whose single
rasterized page OCRs to the empty string — so the claimed invariant
fails for the OCR strategy. -/
theorem C8_counterexample :
    parse_khmer_text_scanned id docOcrEmpty "khm" = .ok [] ∧ pyStrip [] = [] :=
  ⟨rfl, rfl⟩

/-- C8 amended: the invariant holds for the native strategy — whenever
native extraction returns text, that text is non-empty after whitespace
trimming (given an NFC oracle that keeps a non-whitespace character in
any string that has one); the OCR strategy's successful text may be
empty after trimming. -/
theorem C8_native_nonempty (nfc : Str → Str)
    (hnfc : ∀ t, pyStrip t ≠ [] → pyStrip (nfc t) ≠ [])
    (d : PDFDoc) (s : Str) (h : parse_khmer_text_native nfc d = .ok s) :
    pyStrip s ≠ [] := by
  obtain ⟨u, hs, hstrip⟩ := native_success_shape nfc d s h
  rw [hs]
  exact hnfc (collapse u) (pyStrip_collapse_ne_nil u hstrip)

/-- C8 witness: native extraction of a one-page document reading "a"
yields "a", which is non-empty after trimming. -/
theorem C8_witness : pyStrip ['a'] ≠ [] :=
  C8_native_nonempty id (fun _ h => h) docNativeA ['a'] rfl

/-- C10: every successful extraction output — native, OCR, or standalone
image — has single interior spaces as its only whitespace: no newline or
other whitespace character, no leading or trailing space, no two
consecutive spaces (given an NFC oracle mapping whitespace-collapsed
strings to whitespace-collapsed strings); in particular the newline page
separators never survive into the output. -/
theorem C10_output_whitespace (nfc : Str → Str)
    (hnfc : ∀ t, collapse t = t → collapse (nfc t) = nfc t) :
    (∀ (d : PDFDoc) (s : Str),
        parse_khmer_text_native nfc d = .ok s → outShape s)
    ∧ (∀ (d : PDFDoc) (lang : String) (s : Str),
        parse_khmer_text_scanned nfc d lang = .ok s → outShape s)
    ∧ (∀ (ocrOut : Except Unit Str) (s : Str),
        extract_text_from_image nfc ocrOut = .ok s → outShape s) := by
  have key : ∀ u, outShape (nfc (collapse u)) := fun u =>
    outShape_of_fixed _ (hnfc (collapse u) (collapse_idem u))
  refine ⟨?_, ?_, ?_⟩
  · intro d s h
    obtain ⟨u, hs, _⟩ := native_success_shape nfc d s h
    rw [hs]
    exact key u
  · intro d lang s h
    obtain ⟨u, hs⟩ := scanned_success_shape nfc d lang s h
    rw [hs]
    exact key u
  · intro ocrOut s h
    cases ocrOut with
    | error e => exact Except.noConfusion h
    | ok t =>
      have h2 : Except.ok (nfc (collapse t)) = Except.ok s := h
      rw [← Except.ok.inj h2]
      exact key t

/-- C10 witness: a concrete extraction through the image path yields
"b", which satisfies the whitespace discipline. -/
theorem C10_witness : outShape ['b'] :=
  (C10_output_whitespace id (fun _ h => h)).2.2 (.ok ['b']) ['b'] rfl

/-- C6: for every readable input image, preprocess applies exactly the
four steps unconditionally and in fixed order — single-channel grayscale
conversion with the ITU-R 601-2 weights, contrast enhancement by the
fixed factor 2 about the rounded image mean, binarization sending a
pixel to black exactly when its luminance is below 140 and to white
otherwise, then the median filter — with the per-pixel arithmetic of
each step as stated, never skipping a step based on image content. -/
theorem C6_preprocess_pipeline (fs : String → Except Unit (Grid RGB))
    (path : String) (img : Grid RGB) (h : fs path = .ok img) :
    preprocess_image fs path =
      .ok (medianFilter (binarize (contrastEnhance2 (grayscale img))))
    ∧ (∀ (g : Grid Nat) (i j x : Nat), pixelAt g i j = some x →
        pixelAt (binarize g) i j = some (if x < 140 then 0 else 255))
    ∧ (∀ (g : Grid Nat) (i j x : Nat), pixelAt g i j = some x →
        pixelAt (contrastEnhance2 g) i j =
          some (clamp255 (2 * (x : Int) - (meanRound g : Int))))
    ∧ (∀ c : RGB, rgbToL c = (c.r * 19595 + c.g * 38470 + c.b * 7471) / 65536)
    ∧ (∀ (g : Grid Nat) (i j y : Nat),
        pixelAt (binarize g) i j = some y → y = 0 ∨ y = 255) := by
  refine ⟨?_, ?_, ?_, fun c => rfl, ?_⟩
  · unfold preprocess_image
    rw [h]
  · intro g i j x hx
    simp only [binarize]
    rw [pixelAt_map, hx]
    rfl
  · intro g i j x hx
    simp only [contrastEnhance2]
    rw [pixelAt_map, hx]
    rfl
  · intro g i j y hy
    simp only [binarize] at hy
    rw [pixelAt_map] at hy
    cases hx : pixelAt g i j with
    | none =>
      rw [hx] at hy
      exact Option.noConfusion hy
    | some x =>
      rw [hx] at hy
      have hxy : (if x < 140 then 0 else 255) = y := Option.some.inj hy
      by_cases hlt : x < 140
      · left
        rw [← hxy, if_pos hlt]
      · right
        rw [← hxy, if_neg hlt]

/-- C6 witness: the pipeline equation at a concrete 2×2 image, and the
threshold characterization at luminance 139 (black). -/
theorem C6_witness :
    preprocess_image fsTiny "img.png" =
      .ok (medianFilter (binarize (contrastEnhance2 (grayscale
        [[⟨0, 0, 0⟩, ⟨255, 255, 255⟩], [⟨10, 20, 30⟩, ⟨200, 100, 50⟩]]))))
    ∧ pixelAt (binarize [[139, 140]]) 0 0 = some 0 := by
  constructor
  · exact (C6_preprocess_pipeline fsTiny "img.png" _ rfl).1
  · have hb := (C6_preprocess_pipeline fsTiny "img.png" _ rfl).2.1
      [[139, 140]] 0 0 139 rfl
    simpa using hb

/-- C7: preprocessing is deterministic — a pure function of the input
pixels: any two loads yielding the same pixel grid produce identical
outputs, so applying preprocess twice to the same input pixels yields
pixel-identical results. -/
theorem C7_preprocess_deterministic (fs1 fs2 : String → Except Unit (Grid RGB))
    (p1 p2 : String) (img : Grid RGB)
    (h1 : fs1 p1 = .ok img) (h2 : fs2 p2 = .ok img) :
    preprocess_image fs1 p1 = preprocess_image fs2 p2
    ∧ preprocess_image fs1 p1 =
        .ok (medianFilter (binarize (contrastEnhance2 (grayscale img)))) := by
  unfold preprocess_image
  rw [h1, h2]
  exact ⟨rfl, rfl⟩

/-- C7 witness: two invocations on the same concrete image agree. -/
theorem C7_witness :
    preprocess_image fsTiny "a.png" = preprocess_image fsTiny "b.png" :=
  (C7_preprocess_deterministic fsTiny fsTiny "a.png" "b.png" _ rfl rfl).1

end KhmerPdf
